/-
Verification of the news-aggregator pipeline (src/news_aggregator.py).

Shallow embedding conventions:
* Python `dict` article records with the five keys title/source/url/date/description
  become the `Article` structure; stored SQLite rows become `Row` (adding the
  store-assigned `id` and `fetched_at`); the database file becomes `DB`.
* Python strings are Lean `String`s.  `str.lower()` and SQLite `LOWER` are both
  modelled by `lowerStr` (ASCII case folding, which is exactly SQLite's LOWER;
  Python's `lower` agrees on ASCII, and all reasoning here is on the ASCII
  fragment).  `str.strip()` is `pyStrip` (drop leading/trailing whitespace).
* `datetime.now(...)` timestamps are explicit `now`/`today` parameters.
* SQLite `INSERT OR IGNORE` with the `UNIQUE` column `url` is modelled by
  `insertOne`: the row is skipped exactly when some stored row already carries
  the same `url` value (SQLite exempts only NULL from UNIQUE, and the pipeline
  always binds a string, never NULL, for `url`).
* SQL `LIKE` is the matcher `likeM` (`%` = any sequence, `_` = any one char);
  SQLite's own ASCII case folding inside LIKE is the identity here because both
  sides are lowercased first, exactly as in the embedded query.
-/
import Mathlib

set_option maxHeartbeats 1000000

/-- ASCII lowercasing of every character: models SQLite `LOWER` and the ASCII
fragment of Python `str.lower()`. -/
def lowerStr (s : String) : String := ⟨s.data.map Char.toLower⟩

/-- Python `str.strip()`: drop leading and trailing whitespace. -/
def pyStrip (s : String) : String :=
  ⟨((s.data.dropWhile Char.isWhitespace).reverse.dropWhile Char.isWhitespace).reverse⟩

/-- The in-memory article record built by the adapters:
`{'title': ..., 'source': ..., 'url': ..., 'date': ..., 'description': ...}`. -/
structure Article where
  title : String
  source : String
  url : String
  date : String
  description : String
deriving DecidableEq, Repr

/-- `article['title'].lower().strip()` — the canonicalization key used by
`NewsAggregator.deduplicate` (line 101 of the source). -/
def canonKey (a : Article) : String := pyStrip (lowerStr a.title)

/-- The loop body of `NewsAggregator.deduplicate`: `seen` is the `seen_titles`
set (modelled as the list of keys added so far; only membership is used). -/
def dedupAux (seen : List String) : List Article → List Article
  | [] => []
  | a :: rest =>
    let k := canonKey a
    if !(seen.contains k) && !(k == "") then
      a :: dedupAux (k :: seen) rest
    else
      dedupAux seen rest

/-- `NewsAggregator.deduplicate` (source lines 95–106). -/
def deduplicate (articles : List Article) : List Article := dedupAux [] articles

/-- Whether `a`'s canonical key is non-empty and differs from the key of every
article in `pre` (the articles occurring earlier in the input). -/
def freshKey (pre : List Article) (a : Article) : Bool :=
  canonKey a != "" && pre.all (fun b => canonKey b != canonKey a)

/-- Spec-side recursion for C1: keep exactly the articles whose canonical key
is non-empty and has not occurred as the key of any earlier article. -/
def dedupSpecAux (pre : List Article) : List Article → List Article
  | [] => []
  | a :: rest =>
    if freshKey pre a then a :: dedupSpecAux (pre ++ [a]) rest
    else dedupSpecAux (pre ++ [a]) rest

/-- Spec-side description of deduplication, transcribed from the claim: the
subsequence of articles with a non-empty canonical key not seen earlier. -/
def dedupSpec (l : List Article) : List Article := dedupSpecAux [] l

theorem freshKey_iff (pre : List Article) (a : Article) :
    freshKey pre a = true ↔ canonKey a ≠ "" ∧ ∀ b ∈ pre, canonKey b ≠ canonKey a := by
  simp [freshKey]

theorem dedupAux_eq_dedupSpecAux :
    ∀ (l : List Article) (seen : List String) (pre : List Article),
      (∀ k, k ∈ seen ↔ (k ≠ "" ∧ k ∈ pre.map canonKey)) →
      dedupAux seen l = dedupSpecAux pre l := by
  intro l
  induction l with
  | nil => intro seen pre _; rfl
  | cons a rest ih =>
    intro seen pre h
    simp only [dedupAux, dedupSpecAux]
    by_cases hf : freshKey pre a = true
    · obtain ⟨hk, hall⟩ := (freshKey_iff pre a).1 hf
      have hnotin : canonKey a ∉ seen := by
        intro hmem
        rcases (h _).1 hmem with ⟨_, hmap⟩
        rcases List.mem_map.1 hmap with ⟨b, hb, hba⟩
        exact hall b hb hba
      have hcode : (!(seen.contains (canonKey a)) && !(canonKey a == "")) = true := by
        simp [hnotin, hk]
      rw [if_pos hcode, if_pos hf]
      have hinv : ∀ k, k ∈ (canonKey a :: seen) ↔
          (k ≠ "" ∧ k ∈ (pre ++ [a]).map canonKey) := by
        intro k
        simp only [List.mem_cons, List.map_append, List.mem_append, List.map_cons,
          List.map_nil]
        constructor
        · rintro (rfl | hmem)
          · exact ⟨hk, Or.inr (by simp)⟩
          · rcases (h k).1 hmem with ⟨hne, hmap⟩
            exact ⟨hne, Or.inl hmap⟩
        · rintro ⟨hne, hmap | hsingle⟩
          · exact Or.inr ((h k).2 ⟨hne, hmap⟩)
          · exact Or.inl (by simpa using hsingle)
      exact congrArg (a :: ·) (ih (canonKey a :: seen) (pre ++ [a]) hinv)
    · have hdrop : canonKey a = "" ∨ ∃ b ∈ pre, canonKey b = canonKey a := by
        by_contra hcon
        push_neg at hcon
        exact hf ((freshKey_iff pre a).2 ⟨hcon.1, fun b hb => hcon.2 b hb⟩)
      have hcode : (!(seen.contains (canonKey a)) && !(canonKey a == "")) = false := by
        rcases eq_or_ne (canonKey a) "" with hk | hk
        · simp [hk]
        · rcases hdrop with hk2 | ⟨b, hb, hba⟩
          · exact absurd hk2 hk
          · have hmem : canonKey a ∈ seen := (h _).2 ⟨hk, List.mem_map.2 ⟨b, hb, hba⟩⟩
            simp [hmem]
      rw [if_neg (by simp only [hcode]; decide), if_neg hf]
      apply ih seen (pre ++ [a])
      intro k
      rw [h k]
      simp only [List.map_append, List.mem_append, List.map_cons, List.map_nil,
        List.mem_singleton]
      constructor
      · rintro ⟨hne, hmap⟩
        exact ⟨hne, Or.inl hmap⟩
      · rintro ⟨hne, hmap | rfl⟩
        · exact ⟨hne, hmap⟩
        · rcases hdrop with hk | ⟨b, hb, hba⟩
          · exact absurd hk hne
          · exact ⟨hne, List.mem_map.2 ⟨b, hb, hba⟩⟩

/-- C1: `deduplicate` returns exactly the articles whose canonicalization key
(title lowercased and trimmed) is non-empty and has not occurred as the key of
any earlier article in the input, preserving input order (first occurrence of
each key wins). -/
theorem deduplicate_eq_dedupSpec (l : List Article) : deduplicate l = dedupSpec l :=
  dedupAux_eq_dedupSpecAux l [] [] (by simp)

theorem dedupAux_props :
    ∀ (l : List Article) (seen : List String),
      (∀ a ∈ dedupAux seen l, canonKey a ≠ "" ∧ canonKey a ∉ seen) ∧
      ((dedupAux seen l).map canonKey).Nodup := by
  intro l
  induction l with
  | nil => intro seen; exact ⟨by simp [dedupAux], by simp [dedupAux]⟩
  | cons a rest ih =>
    intro seen
    simp only [dedupAux]
    by_cases hc : (!(seen.contains (canonKey a)) && !(canonKey a == "")) = true
    · rw [if_pos hc]
      have hc' : canonKey a ∉ seen ∧ ¬(canonKey a = "") := by simpa using hc
      obtain ⟨hns, hk⟩ := hc'
      obtain ⟨hmem, hnodup⟩ := ih (canonKey a :: seen)
      constructor
      · intro b hb
        rcases List.mem_cons.1 hb with rfl | hb2
        · exact ⟨hk, hns⟩
        · exact ⟨(hmem b hb2).1,
            fun hmem2 => (hmem b hb2).2 (List.mem_cons_of_mem _ hmem2)⟩
      · rw [List.map_cons, List.nodup_cons]
        refine ⟨?_, hnodup⟩
        intro hmap
        rcases List.mem_map.1 hmap with ⟨b, hb, hba⟩
        exact (hmem b hb).2 (hba ▸ List.mem_cons_self _ _)
    · rw [if_neg hc]
      exact ih seen

theorem dedupAux_fixed :
    ∀ (l : List Article) (seen : List String),
      (∀ a ∈ l, canonKey a ≠ "" ∧ canonKey a ∉ seen) →
      (l.map canonKey).Nodup →
      dedupAux seen l = l := by
  intro l
  induction l with
  | nil => intro seen _ _; rfl
  | cons a rest ih =>
    intro seen hmem hnodup
    obtain ⟨hk, hns⟩ := hmem a (List.mem_cons_self a rest)
    have hc : (!(seen.contains (canonKey a)) && !(canonKey a == "")) = true := by
      simp [hns, hk]
    simp only [dedupAux]
    rw [if_pos hc]
    congr 1
    rw [List.map_cons, List.nodup_cons] at hnodup
    apply ih (canonKey a :: seen)
    · intro b hb
      obtain ⟨hbk, hbs⟩ := hmem b (List.mem_cons_of_mem a hb)
      refine ⟨hbk, ?_⟩
      intro hbc
      rcases List.mem_cons.1 hbc with heq | hmem2
      · exact hnodup.1 (heq ▸ List.mem_map_of_mem canonKey hb)
      · exact hbs hmem2
    · exact hnodup.2

/-- C6: deduplication is idempotent: `deduplicate (deduplicate L) = deduplicate L`
for every input sequence `L`. -/
theorem deduplicate_idempotent (l : List Article) :
    deduplicate (deduplicate l) = deduplicate l := by
  obtain ⟨hmem, hnodup⟩ := dedupAux_props l []
  show dedupAux [] (dedupAux [] l) = dedupAux [] l
  apply dedupAux_fixed
  · intro a ha
    exact ⟨(hmem a ha).1, by simp⟩
  · exact hnodup

/-- A stored row of the `articles` table created by `init_database`
(source lines 20–30): the five article fields plus the store-assigned
AUTOINCREMENT `id` and the ingestion timestamp `fetched_at`. -/
structure Row where
  id : Nat
  title : String
  source : String
  url : String
  date : String
  description : String
  fetched_at : String
deriving DecidableEq, Repr

/-- The SQLite database: the `articles` table contents in insertion order plus
the next AUTOINCREMENT id. -/
structure DB where
  rows : List Row
  nextId : Nat
deriving DecidableEq, Repr

/-- A fresh database, as `init_database` creates it (AUTOINCREMENT ids start at 1). -/
def emptyDB : DB := ⟨[], 1⟩

/-- One `INSERT OR IGNORE` statement of `store_articles` (source lines 116–126).
The row is ignored exactly when its `url` value equals the `url` of some stored
row (the `UNIQUE` constraint on `url`; SQLite exempts only NULL from UNIQUE and
the code always binds a Python string, never None).  Returns the updated
database and `cursor.rowcount` (1 if inserted, 0 if ignored). -/
def insertOne (db : DB) (now : String) (a : Article) : DB × Nat :=
  if db.rows.any (fun r => r.url == a.url) then (db, 0)
  else ({ rows := db.rows ++
            [⟨db.nextId, a.title, a.source, a.url, a.date, a.description, now⟩],
          nextId := db.nextId + 1 }, 1)

/-- `NewsAggregator.store_articles` (source lines 108–134): insert each article
in order, accumulating `stored_count` from the per-statement rowcounts. -/
def store_articles (db : DB) (now : String) (articles : List Article) : DB × Nat :=
  articles.foldl (fun acc a =>
    let r := insertOne acc.1 now a
    (r.1, acc.2 + r.2)) (db, 0)

/-- Number of stored rows whose `url` equals `u`. -/
def urlCount (db : DB) (u : String) : Nat :=
  (db.rows.filter (fun r => r.url == u)).length

theorem filter_url_length_one :
    ∀ (rs : List Row) (u : String),
      rs.Pairwise (fun r1 r2 => r1.url ≠ r2.url) →
      (∃ r ∈ rs, r.url = u) →
      (rs.filter (fun r => r.url == u)).length = 1 := by
  intro rs
  induction rs with
  | nil => intro u _ hex; simp at hex
  | cons r rest ih =>
    intro u hpw hex
    rw [List.pairwise_cons] at hpw
    by_cases hr : r.url = u
    · have hnone : ∀ b ∈ rest, ¬(b.url = u) := by
        intro b hb hbu
        exact hpw.1 b hb (hr.trans hbu.symm)
      rw [List.filter_cons_of_pos (by simpa using hr)]
      rw [List.length_cons, List.filter_eq_nil_iff.2 (fun b hb => by simpa using hnone b hb)]
      rfl
    · rw [List.filter_cons_of_neg (by simpa using hr)]
      apply ih u hpw.2
      rcases hex with ⟨b, hb, hbu⟩
      rcases List.mem_cons.1 hb with rfl | hb2
      · exact absurd hbu hr
      · exact ⟨b, hb2, hbu⟩

/-- C2: for a store whose rows carry pairwise distinct urls, re-inserting an
article whose non-empty `url` is already present changes nothing: the store is
unchanged, exactly one row for that url remains, and the reported
newly-inserted count is 0. -/
theorem store_existing_url_noop (db : DB) (now : String) (a : Article)
    (hne : a.url ≠ "")
    (hpresent : ∃ r ∈ db.rows, r.url = a.url)
    (huniq : db.rows.Pairwise (fun r1 r2 => r1.url ≠ r2.url)) :
    (store_articles db now [a]).1 = db ∧
    (store_articles db now [a]).2 = 0 ∧
    urlCount (store_articles db now [a]).1 a.url = 1 := by
  have hany : db.rows.any (fun r => r.url == a.url) = true := by
    rcases hpresent with ⟨r, hr, hru⟩
    exact List.any_eq_true.2 ⟨r, hr, by simpa using hru⟩
  have hstep : store_articles db now [a] = (db, 0) := by
    simp only [store_articles, List.foldl, insertOne, hany, if_true]
  refine ⟨by rw [hstep], by rw [hstep], ?_⟩
  rw [hstep]
  exact filter_url_length_one db.rows a.url huniq hpresent

/-- A concrete one-row store and a matching article for the C2 witness. -/
def exRow2 : Row := ⟨1, "Fed Raises Rates", "BBC News", "http://e.x/1", "2024-01-01", "", "t0"⟩

def exDB2 : DB := ⟨[exRow2], 2⟩

def exArt2 : Article := ⟨"Fed Raises Rates", "BBC News", "http://e.x/1", "2024-01-01", ""⟩

/-- Witness for C2: re-inserting the already-stored article leaves the concrete
store unchanged with one row for that url and a reported count of 0. -/
theorem store_existing_url_noop_witness :
    (exArt2.url ≠ "" ∧ (∃ r ∈ exDB2.rows, r.url = exArt2.url) ∧
      exDB2.rows.Pairwise (fun r1 r2 => r1.url ≠ r2.url)) ∧
    ((store_articles exDB2 "t1" [exArt2]).1 = exDB2 ∧
     (store_articles exDB2 "t1" [exArt2]).2 = 0 ∧
     urlCount (store_articles exDB2 "t1" [exArt2]).1 exArt2.url = 1) :=
  ⟨⟨by decide, by decide, by decide⟩,
   store_existing_url_noop exDB2 "t1" exArt2 (by decide) (by decide) (by decide)⟩

def c3a1 : Article := ⟨"Alpha", "s1", "", "", ""⟩

def c3a2 : Article := ⟨"Beta", "s2", "", "", ""⟩

/-- C3 counterexample: two articles with empty `url` and different titles are
inserted into a fresh store, yet only the first is stored (the UNIQUE
constraint fires on the second empty url) and one new row is reported — the
claim expected both to be stored. -/
theorem store_empty_url_counterexample :
    c3a1.url = "" ∧ c3a2.url = "" ∧ c3a1.title ≠ c3a2.title ∧
    (store_articles emptyDB "t" [c3a1, c3a2]).1.rows.map Row.title = ["Alpha"] ∧
    (store_articles emptyDB "t" [c3a1, c3a2]).2 = 1 := by decide

/-- C3 amended: the `UNIQUE` constraint applies to the empty `url` value like
any other string (only SQL NULL is exempt, and the code never binds NULL): if
no stored row has an empty url, inserting two empty-url articles with different
titles stores only the first and reports one newly stored row. -/
theorem store_empty_url_unique (db : DB) (now : String) (a1 a2 : Article)
    (h1 : a1.url = "") (h2 : a2.url = "") (hti : a1.title ≠ a2.title)
    (hno : ∀ r ∈ db.rows, r.url ≠ "") :
    (store_articles db now [a1, a2]).1.rows =
      db.rows ++ [⟨db.nextId, a1.title, a1.source, a1.url, a1.date, a1.description, now⟩] ∧
    (store_articles db now [a1, a2]).2 = 1 := by
  have h1any : db.rows.any (fun r => r.url == a1.url) = false := by
    simp only [List.any_eq_false]
    intro r hr
    simp [h1, hno r hr]
  have e1 : insertOne db now a1 =
      ({ rows := db.rows ++
           [⟨db.nextId, a1.title, a1.source, a1.url, a1.date, a1.description, now⟩],
         nextId := db.nextId + 1 }, 1) := by
    rw [insertOne, if_neg]
    simp [h1any]
  have h2any : ((db.rows ++
      [(⟨db.nextId, a1.title, a1.source, a1.url, a1.date, a1.description, now⟩ : Row)]).any
      (fun r => r.url == a2.url)) = true := by
    simp [h1, h2]
  have e2 : insertOne
      ({ rows := db.rows ++
           [⟨db.nextId, a1.title, a1.source, a1.url, a1.date, a1.description, now⟩],
         nextId := db.nextId + 1 } : DB) now a2 =
      ({ rows := db.rows ++
           [⟨db.nextId, a1.title, a1.source, a1.url, a1.date, a1.description, now⟩],
         nextId := db.nextId + 1 }, 0) := by
    rw [insertOne, if_pos]
    simpa using h2any
  have hunf : store_articles db now [a1, a2] =
      ((insertOne (insertOne db now a1).1 now a2).1,
       (0 + (insertOne db now a1).2) + (insertOne (insertOne db now a1).1 now a2).2) := rfl
  rw [hunf, e1]
  simp only [e2]
  exact ⟨trivial, trivial⟩

/-- Witness for C3 amended at a concrete fresh store. -/
theorem store_empty_url_unique_witness :
    (c3a1.url = "" ∧ c3a2.url = "" ∧ c3a1.title ≠ c3a2.title ∧
      (∀ r ∈ emptyDB.rows, r.url ≠ "")) ∧
    ((store_articles emptyDB "t" [c3a1, c3a2]).1.rows =
       emptyDB.rows ++ [⟨emptyDB.nextId, c3a1.title, c3a1.source, c3a1.url, c3a1.date,
         c3a1.description, "t"⟩] ∧
     (store_articles emptyDB "t" [c3a1, c3a2]).2 = 1) :=
  ⟨⟨rfl, rfl, by decide, by decide⟩,
   store_empty_url_unique emptyDB "t" c3a1 c3a2 rfl rfl (by decide) (by decide)⟩

/-- SQLite `LIKE` pattern matching on character lists: `%` matches any sequence
of characters, `_` matches exactly one character, and every other pattern
character matches itself.  (SQLite's ASCII case folding inside `LIKE` is the
identity wherever the embedded query uses this, because both sides are
lowercased first, exactly as in `query_articles`.) -/
def likeM : List Char → List Char → Bool
  | [], t => t.isEmpty
  | c :: p2, t =>
    if c = '%' then t.tails.any (fun t2 => likeM p2 t2)
    else
      match t with
      | [] => false
      | d :: t2 => (c == '_' || c == d) && likeM p2 t2

theorem likeM_nil (t : List Char) : likeM [] t = t.isEmpty := rfl

theorem likeM_pct_nil (p : List Char) : likeM ('%' :: p) [] = likeM p [] := by
  simp [likeM]

theorem likeM_pct_cons (p : List Char) (d : Char) (t : List Char) :
    likeM ('%' :: p) (d :: t) = (likeM p (d :: t) || likeM ('%' :: p) t) := by
  simp [likeM]

theorem likeM_lit_nil (c : Char) (p : List Char) (h : c ≠ '%') :
    likeM (c :: p) [] = false := by
  simp [likeM, h]

theorem likeM_lit_cons (c : Char) (p : List Char) (d : Char) (t : List Char) (h : c ≠ '%') :
    likeM (c :: p) (d :: t) = ((c == '_' || c == d) && likeM p t) := by
  simp [likeM, h]

theorem likeM_pct_iff (p : List Char) (t : List Char) :
    likeM ('%' :: p) t = true ↔ ∃ u v, t = u ++ v ∧ likeM p v = true := by
  induction t with
  | nil =>
    rw [likeM_pct_nil]
    constructor
    · intro h
      exact ⟨[], [], rfl, h⟩
    · rintro ⟨u, v, huv, hv⟩
      obtain ⟨rfl, rfl⟩ := List.append_eq_nil.1 huv.symm
      exact hv
  | cons d t2 ih =>
    rw [likeM_pct_cons, Bool.or_eq_true, ih]
    constructor
    · rintro (h | ⟨u, v, rfl, hv⟩)
      · exact ⟨[], d :: t2, rfl, h⟩
      · exact ⟨d :: u, v, rfl, hv⟩
    · rintro ⟨u, v, huv, hv⟩
      cases u with
      | nil =>
        rw [List.nil_append] at huv
        exact Or.inl (huv ▸ hv)
      | cons e u2 =>
        rw [List.cons_append, List.cons.injEq] at huv
        exact Or.inr ⟨u2, v, huv.2, hv⟩

theorem likeM_prefix_pct :
    ∀ (s : List Char), (∀ c ∈ s, c ≠ '%' ∧ c ≠ '_') →
      ∀ t, likeM (s ++ ['%']) t = true ↔ ∃ v, t = s ++ v := by
  intro s
  induction s with
  | nil =>
    intro _ t
    simp only [List.nil_append]
    rw [likeM_pct_iff]
    constructor
    · intro _
      exact ⟨t, rfl⟩
    · intro _
      exact ⟨t, [], by simp, by rw [likeM_nil]; rfl⟩
  | cons c s2 ih =>
    intro hs t
    have hc : c ≠ '%' ∧ c ≠ '_' := hs c (List.mem_cons_self c s2)
    have hs2 : ∀ x ∈ s2, x ≠ '%' ∧ x ≠ '_' := fun x hx => hs x (List.mem_cons_of_mem c hx)
    cases t with
    | nil =>
      rw [List.cons_append, likeM_lit_nil _ _ hc.1]
      simp
    | cons d t2 =>
      rw [List.cons_append, likeM_lit_cons _ _ _ _ hc.1, Bool.and_eq_true, ih hs2 t2]
      constructor
      · rintro ⟨hcd, v, rfl⟩
        have hcd2 : c = d := by
          rcases (by simpa using hcd : c = '_' ∨ c = d) with h | h
          · exact absurd h hc.2
          · exact h
        exact ⟨v, by rw [hcd2, List.cons_append]⟩
      · rintro ⟨v, hv⟩
        rw [List.cons_append, List.cons.injEq] at hv
        exact ⟨by simp [hv.1], v, hv.2⟩

theorem likeM_infix_iff (s t : List Char) (hs : ∀ c ∈ s, c ≠ '%' ∧ c ≠ '_') :
    likeM ('%' :: (s ++ ['%'])) t = true ↔ s <:+: t := by
  rw [likeM_pct_iff]
  constructor
  · rintro ⟨u, v, rfl, hv⟩
    rcases (likeM_prefix_pct s hs v).1 hv with ⟨w, rfl⟩
    exact ⟨u, w, by simp⟩
  · rintro ⟨u, w, rfl⟩
    exact ⟨u, s ++ w, by simp, (likeM_prefix_pct s hs (s ++ w)).2 ⟨w, rfl⟩⟩

/-- The `AND LOWER(source) LIKE ?` condition with parameter
`f"%{source.lower()}%"` that `query_articles` adds when a source filter is
supplied (source lines 144–146); a missing or empty filter is Python-falsy and
adds no condition. -/
def sourceCond (f : Option String) (r : Row) : Bool :=
  match f with
  | none => true
  | some s =>
    if s = "" then true
    else likeM ('%' :: ((lowerStr s).data ++ ['%'])) (lowerStr r.source).data

/-- The `AND (LOWER(title) LIKE ? OR LOWER(description) LIKE ?)` condition with
the wrapped lowercased keyword (source lines 148–150). -/
def keywordCond (f : Option String) (r : Row) : Bool :=
  match f with
  | none => true
  | some s =>
    if s = "" then true
    else
      likeM ('%' :: ((lowerStr s).data ++ ['%'])) (lowerStr r.title).data ||
      likeM ('%' :: ((lowerStr s).data ++ ['%'])) (lowerStr r.description).data

/-- The `AND date = ?` condition (source lines 152–154). -/
def dateCond (f : Option String) (r : Row) : Bool :=
  match f with
  | none => true
  | some s => if s = "" then true else r.date == s

/-- The complete WHERE clause of `query_articles` (starting from `WHERE 1=1`). -/
def matchRow (source keyword date : Option String) (r : Row) : Bool :=
  sourceCond source r && keywordCond keyword r && dateCond date r

/-- `ORDER BY date DESC, id DESC` as a total preorder: `r1` may come before
`r2` when `r1`'s date is larger (SQLite TEXT comparison = lexicographic,
which for these strings coincides with Lean's `String` order), or the dates
are equal and `r1`'s id is at least `r2`'s. -/
def rowLe (r1 r2 : Row) : Prop :=
  r2.date < r1.date ∨ (r1.date = r2.date ∧ r2.id ≤ r1.id)

instance : DecidableRel rowLe := fun r1 r2 => by
  unfold rowLe
  exact inferInstance

instance : IsTotal Row rowLe where
  total r1 r2 := by
    rcases lt_trichotomy r1.date r2.date with h | h | h
    · exact Or.inr (Or.inl h)
    · rcases Nat.le_total r2.id r1.id with hi | hi
      · exact Or.inl (Or.inr ⟨h, hi⟩)
      · exact Or.inr (Or.inr ⟨h.symm, hi⟩)
    · exact Or.inl (Or.inl h)

instance : IsTrans Row rowLe where
  trans r1 r2 r3 h12 h23 := by
    rcases h12 with h12 | ⟨e12, i12⟩
    · rcases h23 with h23 | ⟨e23, i23⟩
      · exact Or.inl (lt_trans h23 h12)
      · exact Or.inl (e23 ▸ h12)
    · rcases h23 with h23 | ⟨e23, i23⟩
      · exact Or.inl (lt_of_lt_of_eq h23 e12.symm)
      · exact Or.inr ⟨e12.trans e23, Nat.le_trans i23 i12⟩

/-- Projection to the five selected columns
(`SELECT title, source, url, date, description`, source line 141). -/
def projectRow (r : Row) : Article := ⟨r.title, r.source, r.url, r.date, r.description⟩

/-- The rows the SQL query of `query_articles` produces before column
selection: WHERE filter then `ORDER BY date DESC, id DESC` (modelled by a
sort under `rowLe`; on reachable stores ids are distinct, so the ordering is
determined). -/
def queryRows (db : DB) (source keyword date : Option String) : List Row :=
  List.insertionSort rowLe (db.rows.filter (matchRow source keyword date))

/-- `NewsAggregator.query_articles` (source lines 136–172). -/
def query_articles (db : DB) (source keyword date : Option String) : List Article :=
  (queryRows db source keyword date).map projectRow

/-- Strictly descending (date, id) order: date descending, ties broken by the
larger (most recently assigned) id first. -/
def rowStrict (r1 r2 : Row) : Prop :=
  r2.date < r1.date ∨ (r1.date = r2.date ∧ r2.id < r1.id)

/-- C4: on a store whose rows carry distinct ids, `query_articles` returns a
permutation of the matching rows, strictly sorted by date descending with ties
broken by store-assigned id (insertion order) descending, and projected to the
five article fields. -/
theorem query_ordering (db : DB) (s k d : Option String)
    (hids : (db.rows.map Row.id).Nodup) :
    (queryRows db s k d).Perm (db.rows.filter (matchRow s k d)) ∧
    (queryRows db s k d).Pairwise rowStrict ∧
    query_articles db s k d = (queryRows db s k d).map projectRow := by
  have hperm : (queryRows db s k d).Perm (db.rows.filter (matchRow s k d)) :=
    List.perm_insertionSort rowLe _
  refine ⟨hperm, ?_, rfl⟩
  have hsorted : List.Pairwise rowLe (queryRows db s k d) :=
    List.sorted_insertionSort rowLe _
  have h1 : db.rows.Pairwise (fun r1 r2 => r1.id ≠ r2.id) :=
    List.pairwise_map.1 hids
  have h2 : (db.rows.filter (matchRow s k d)).Pairwise (fun r1 r2 => r1.id ≠ r2.id) :=
    h1.sublist (List.filter_sublist _)
  have hne : (queryRows db s k d).Pairwise (fun r1 r2 => r1.id ≠ r2.id) :=
    (hperm.pairwise_iff (fun h => h.symm)).2 h2
  refine (hsorted.and hne).imp ?_
  intro r1 r2 h
  rcases h.1 with hd | ⟨he, hi⟩
  · exact Or.inl hd
  · exact Or.inr ⟨he, lt_of_le_of_ne hi (Ne.symm h.2)⟩

/-- The spec's query-ordering example store: dates 2024-01-01, 2024-01-03,
2024-01-02 inserted in that order. -/
def exDB4 : DB :=
  ⟨[⟨1, "A", "s", "u1", "2024-01-01", "", "t"⟩,
    ⟨2, "B", "s", "u2", "2024-01-03", "", "t"⟩,
    ⟨3, "C", "s", "u3", "2024-01-02", "", "t"⟩], 4⟩

/-- Witness for C4 at the spec's example store, with an unfiltered query. -/
theorem query_ordering_witness :
    (exDB4.rows.map Row.id).Nodup ∧
    ((queryRows exDB4 none none none).Perm (exDB4.rows.filter (matchRow none none none)) ∧
     (queryRows exDB4 none none none).Pairwise rowStrict ∧
     query_articles exDB4 none none none = (queryRows exDB4 none none none).map projectRow) :=
  ⟨by decide, query_ordering exDB4 none none none (by decide)⟩

/-- Spec-side source filter from claim C5's words: a supplied non-empty filter
must occur as a case-insensitive substring of the row's source. -/
def specSourceMatch (f : Option String) (r : Row) : Bool :=
  match f with
  | none => true
  | some s =>
    if s = "" then true
    else decide ((lowerStr s).data <:+: (lowerStr r.source).data)

/-- Spec-side keyword filter: a supplied non-empty keyword must occur as a
case-insensitive substring of the title or of the description. -/
def specKeywordMatch (f : Option String) (r : Row) : Bool :=
  match f with
  | none => true
  | some s =>
    if s = "" then true
    else decide ((lowerStr s).data <:+: (lowerStr r.title).data ∨
                 (lowerStr s).data <:+: (lowerStr r.description).data)

/-- Spec-side date filter: exact equality when supplied and non-empty. -/
def specDateMatch (f : Option String) (r : Row) : Bool :=
  match f with
  | none => true
  | some s => if s = "" then true else r.date == s

/-- The conjunction of the three spec-side filters of claim C5. -/
def specMatch (source keyword date : Option String) (r : Row) : Bool :=
  specSourceMatch source r && specKeywordMatch keyword r && specDateMatch date r

/-- The supplied filter text contains no SQL LIKE wildcard (`%` or `_`). -/
def wildcardFree : Option String → Prop
  | none => True
  | some s => ∀ c ∈ s.data, c ≠ '%' ∧ c ≠ '_'

instance instDecWildcardFree : (f : Option String) → Decidable (wildcardFree f)
  | none => isTrue trivial
  | some s => (inferInstance : Decidable (∀ c ∈ s.data, c ≠ '%' ∧ c ≠ '_'))

theorem toLower_wildcard (c : Char) (h : c ≠ '%' ∧ c ≠ '_') :
    Char.toLower c ≠ '%' ∧ Char.toLower c ≠ '_' := by
  simp only [Char.toLower]
  split
  · next hcond =>
      obtain ⟨h1, h2⟩ := hcond
      generalize c.toNat = n at h1 h2
      interval_cases n <;> exact ⟨by decide, by decide⟩
  · exact h

theorem lowerStr_wildcardFree (s : String) (h : ∀ c ∈ s.data, c ≠ '%' ∧ c ≠ '_') :
    ∀ c ∈ (lowerStr s).data, c ≠ '%' ∧ c ≠ '_' := by
  intro c hc
  have hc2 : c ∈ s.data.map Char.toLower := hc
  rcases List.mem_map.1 hc2 with ⟨d, hd, rfl⟩
  exact toLower_wildcard d (h d hd)

theorem likeM_wrapped_eq_decide (s t : List Char) (hs : ∀ c ∈ s, c ≠ '%' ∧ c ≠ '_') :
    likeM ('%' :: (s ++ ['%'])) t = decide (s <:+: t) := by
  by_cases h : s <:+: t
  · rw [(likeM_infix_iff s t hs).2 h, decide_eq_true h]
  · rw [decide_eq_false h, Bool.eq_false_iff]
    exact fun hh => h ((likeM_infix_iff s t hs).1 hh)

theorem matchRow_eq_spec (s k d : Option String) (r : Row)
    (hs : wildcardFree s) (hk : wildcardFree k) :
    matchRow s k d r = specMatch s k d r := by
  have h1 : sourceCond s r = specSourceMatch s r := by
    cases s with
    | none => rfl
    | some s0 =>
      by_cases hs0 : s0 = ""
      · simp [sourceCond, specSourceMatch, hs0]
      · simp only [sourceCond, specSourceMatch, if_neg hs0]
        exact likeM_wrapped_eq_decide _ _ (lowerStr_wildcardFree s0 hs)
  have h2 : keywordCond k r = specKeywordMatch k r := by
    cases k with
    | none => rfl
    | some k0 =>
      by_cases hk0 : k0 = ""
      · simp [keywordCond, specKeywordMatch, hk0]
      · simp only [keywordCond, specKeywordMatch, if_neg hk0]
        rw [likeM_wrapped_eq_decide _ _ (lowerStr_wildcardFree k0 hk),
            likeM_wrapped_eq_decide _ _ (lowerStr_wildcardFree k0 hk)]
        by_cases ht : (lowerStr k0).data <:+: (lowerStr r.title).data <;>
          by_cases hd2 : (lowerStr k0).data <:+: (lowerStr r.description).data <;>
          simp [ht, hd2]
  have h3 : dateCond d r = specDateMatch d r := rfl
  rw [matchRow, specMatch, h1, h2, h3]

/-- C5 amended: provided the supplied source and keyword filters contain no SQL
LIKE wildcard characters (`%` or `_`), `query_articles` returns exactly the
stored rows (as a multiset; C4 settles the order) whose source contains the
filter case-insensitively, whose title or description contains the keyword
case-insensitively, and whose date equals the date filter — projected to the
five article fields; omitted (or empty, hence Python-falsy) filters impose no
constraint. -/
theorem query_filters_spec (db : DB) (s k d : Option String)
    (hs : wildcardFree s) (hk : wildcardFree k) :
    (query_articles db s k d).Perm
      ((db.rows.filter (fun r => specMatch s k d r)).map projectRow) := by
  have hfeq : db.rows.filter (matchRow s k d) = db.rows.filter (fun r => specMatch s k d r) :=
    List.filter_congr (fun r _ => by rw [matchRow_eq_spec s k d r hs hk])
  have h1 : (query_articles db s k d).Perm ((db.rows.filter (matchRow s k d)).map projectRow) :=
    (List.perm_insertionSort rowLe _).map projectRow
  rwa [hfeq] at h1

/-- The spec's filter-conjunction example store. -/
def exDB5 : DB :=
  ⟨[⟨1, "Fed Raises Rates", "BBC News", "u1", "2024-01-01", "", "t"⟩,
    ⟨2, "Fed Raises Rates", "Reuters", "u2", "2024-01-02", "", "t"⟩], 3⟩

/-- Witness for C5 amended, at the spec's example with filters source "bbc"
and keyword "fed". -/
theorem query_filters_spec_witness :
    (wildcardFree (some "bbc") ∧ wildcardFree (some "fed")) ∧
    (query_articles exDB5 (some "bbc") (some "fed") none).Perm
      ((exDB5.rows.filter (fun r => specMatch (some "bbc") (some "fed") none r)).map
        projectRow) :=
  ⟨⟨by decide, by decide⟩,
   query_filters_spec exDB5 (some "bbc") (some "fed") none (by decide) (by decide)⟩

def exDB5c : DB := ⟨[⟨1, "axb", "s", "u", "2024-01-01", "", "t"⟩], 2⟩

/-- C5 counterexample: with the keyword "a%b" the query returns the stored
article although neither its lowercased title nor its (empty) description
contains "a%b" as a literal substring — `%` acted as a LIKE wildcard, so the
claim's literal-substring semantics does not hold for arbitrary filters. -/
theorem query_keyword_substring_counterexample :
    query_articles exDB5c none (some "a%b") none =
      [⟨"axb", "s", "u", "2024-01-01", ""⟩] ∧
    ¬ ((lowerStr "a%b").data <:+: (lowerStr "axb").data) ∧
    ¬ ((lowerStr "a%b").data <:+: (lowerStr "").data) := by decide

def exDB10 : DB := ⟨[⟨1, "hello world", "src", "u", "2024-01-01", "", "t"⟩], 2⟩

/-- C10: the keyword filter is interpolated into a LIKE pattern, so `%` in a
keyword matches as a wildcard: this stored article is returned for keyword
"h%d" although neither its title nor its description contains "h%d" as a
literal substring. -/
theorem query_like_wildcards :
    query_articles exDB10 none (some "h%d") none =
      [⟨"hello world", "src", "u", "2024-01-01", ""⟩] ∧
    ¬ ((lowerStr "h%d").data <:+: (lowerStr "hello world").data) ∧
    ¬ ((lowerStr "h%d").data <:+: (lowerStr "").data) := by decide

/-- What an export encoder did: the payload handed to the destination file
(`none` = no write was performed; the payload is modelled as the article list
given to the serializer) and how many records the encoder reported. -/
structure ExportOutcome where
  written : Option (List Article)
  reported : Nat
deriving DecidableEq, Repr

/-- `NewsAggregator.export_to_json` (source lines 174–178): opens the
destination and writes `json.dump(articles, ...)` unconditionally — there is
no empty-input guard — then reports `len(articles)`. -/
def export_to_json (articles : List Article) : ExportOutcome :=
  ⟨some articles, articles.length⟩

/-- `NewsAggregator.export_to_csv` (source lines 180–190): `if not articles:`
report "No articles to export" and return without writing; otherwise write the
header and all rows and report `len(articles)`. -/
def export_to_csv (articles : List Article) : ExportOutcome :=
  if articles.isEmpty then ⟨none, 0⟩
  else ⟨some articles, articles.length⟩

/-- `NewsAggregator.export_to_excel` (source lines 192–200): the same
empty-input guard as CSV, then `DataFrame(...).to_excel(...)`. -/
def export_to_excel (articles : List Article) : ExportOutcome :=
  if articles.isEmpty then ⟨none, 0⟩
  else ⟨some articles, articles.length⟩

/-- C7 counterexample: on the empty input the JSON encoder does perform a
write — it serializes the empty list (producing `[]` in the destination file),
having no empty-input guard — so "every encoder performs no write on empty
input" fails. -/
theorem export_json_empty_writes :
    (export_to_json ([] : List Article)).written = some [] ∧
    (export_to_json ([] : List Article)).written ≠ none := by decide

/-- C7 amended: on an empty input every encoder reports zero records; the CSV
and Excel encoders perform no write, while the JSON encoder still writes (the
serialization of the empty list). -/
theorem export_empty_behavior :
    export_to_json ([] : List Article) = ⟨some [], 0⟩ ∧
    export_to_csv ([] : List Article) = ⟨none, 0⟩ ∧
    export_to_excel ([] : List Article) = ⟨none, 0⟩ := by decide

/-- C9: every record returned by `query_articles` is the five-field projection
(title, source, url, date, description) of some stored row; the projection
drops the store-assigned `id` and `fetched_at`, so neither can appear in query
results nor, consequently, in the exports, which consume these `Article`
values. -/
theorem query_returns_projection (db : DB) (s k d : Option String) (a : Article)
    (ha : a ∈ query_articles db s k d) :
    ∃ r ∈ db.rows, a = projectRow r := by
  rcases List.mem_map.1 ha with ⟨r, hr, rfl⟩
  have hr2 : r ∈ db.rows.filter (matchRow s k d) :=
    (List.mem_insertionSort rowLe).1 hr
  exact ⟨r, List.mem_of_mem_filter hr2, rfl⟩

def exDB9 : DB := ⟨[⟨7, "Solo", "src", "u9", "2024-02-02", "d", "t9"⟩], 8⟩

/-- Witness for C9 at a concrete one-row store. -/
theorem query_returns_projection_witness :
    (projectRow ⟨7, "Solo", "src", "u9", "2024-02-02", "d", "t9"⟩ ∈
      query_articles exDB9 none none none) ∧
    ∃ r ∈ exDB9.rows,
      projectRow ⟨7, "Solo", "src", "u9", "2024-02-02", "d", "t9"⟩ = projectRow r :=
  ⟨by decide, query_returns_projection exDB9 none none none _ (by decide)⟩

/-- A Python value as the NewsAPI client sees it after `response.json()`:
text, dict, list, or None (JSON null).  Numbers and booleans, which the code
never inspects, behave on every path the code takes like any other non-text,
non-dict, non-list value and are not distinguished from `none` here. -/
inductive PyVal where
  | str (s : String)
  | dict (fields : List (String × PyVal))
  | list (items : List PyVal)
  | none

/-- Python `dict.get(key, default)` on a dict's fields: the default applies
only when the key is absent (a key mapped to JSON null yields `PyVal.none`). -/
def pyGetD (fields : List (String × PyVal)) (k : String) (d : PyVal) : PyVal :=
  (fields.lookup k).getD d

/-- A value read where the code expects text: non-string values (which Python
would carry through opaquely without raising on these paths) are represented
by the given default — no claim distinguishes the two. -/
def pyStrD (v : PyVal) (d : String) : String :=
  match v with
  | PyVal.str s => s
  | _ => d

/-- Python's `== 'ok'` on an arbitrary value: true exactly for the string
`"ok"`. -/
def isOkStatus (v : PyVal) : Bool :=
  match v with
  | PyVal.str s => s == "ok"
  | _ => false

/-- One iteration of the NewsAPI loop body (source lines 82–89).  Python
raises — modelled as `Except.error` — when the item is not a dict
(`article.get` is an attribute error), when its `source` value is not a dict
(`.get('name', ...)` on it), or when its `publishedAt` value is not text
(`None[:10]` is a type error).  The `[:10]` slice is by characters, modelled
on `data`. -/
def parseNAItem (v : PyVal) : Except Unit Article :=
  match v with
  | PyVal.dict fs => do
    let title := pyStrD (pyGetD fs "title" (PyVal.str "")) ""
    let sourceName ←
      match pyGetD fs "source" (PyVal.dict []) with
      | PyVal.dict sfs => Except.ok (pyStrD (pyGetD sfs "name" (PyVal.str "Unknown")) "Unknown")
      | _ => Except.error ()
    let url := pyStrD (pyGetD fs "url" (PyVal.str "")) ""
    let date ←
      match pyGetD fs "publishedAt" (PyVal.str "") with
      | PyVal.str s => Except.ok (String.mk (s.data.take 10))
      | _ => Except.error ()
    let description := pyStrD (pyGetD fs "description" (PyVal.str "")) ""
    Except.ok ⟨title, sourceName, url, date, description⟩
  | _ => Except.error ()

/-- The shared shape of both adapter loops under their enclosing
`try/except`: append parsed articles until the first iteration raises; the
adapter's `except` then ends the function with the list accumulated so far. -/
def adapterLoop {α : Type} (f : α → Except Unit Article) : List α → List Article → List Article
  | [], acc => acc.reverse
  | v :: rest, acc =>
    match f v with
    | Except.ok a => adapterLoop f rest (a :: acc)
    | Except.error _ => acc.reverse

/-- `NewsAggregator.fetch_newsapi` (source lines 64–93).  The parameter is the
outcome of `requests.get` + `response.json()`: `Except.error` for a network or
JSON-decoding failure.  The api key and query only shape the outbound request
and are omitted.  A non-dict body makes `data.get` raise before any append
(result `[]`), as does iterating a non-list `articles` value (its elements
cannot be dicts, so the first iteration raises). -/
def fetch_newsapi (respJson : Except Unit PyVal) : List Article :=
  match respJson with
  | Except.error _ => []
  | Except.ok data =>
    match data with
    | PyVal.dict fs =>
      if isOkStatus (pyGetD fs "status" PyVal.none) then
        match pyGetD fs "articles" (PyVal.list []) with
        | PyVal.list items => adapterLoop parseNAItem items []
        | _ => []
      else []
    | _ => []

/-- The enclosing `<a>` ancestor of a headline, as found by
`headline.find_parent('a')`: `link['href']` raises KeyError when the tag has
no href attribute. -/
structure ATag where
  href : Option String

/-- An `<h2 data-testid="card-headline">` element as the BBC scraper reads it:
its text and its enclosing `<a>` ancestor, when one exists. -/
structure Headline where
  text : String
  parentA : Option ATag

/-- One iteration of the BBC loop body (source lines 45–58): strip the
headline text; take the parent link's href (KeyError — `Except.error` — when
the attribute is missing; `''` when there is no parent `<a>`); absolutize a
non-empty relative url (`startswith('http')` modelled on `data`). -/
def parseHeadline (today : String) (h : Headline) : Except Unit Article :=
  match h.parentA with
  | Option.none => Except.ok ⟨pyStrip h.text, "BBC News", "", today, ""⟩
  | Option.some a =>
    match a.href with
    | Option.none => Except.error ()
    | Option.some u =>
      let u2 := if u ≠ "" ∧ ¬ ("http".data.isPrefixOf u.data) then
          String.mk ("https://www.bbc.com".data ++ u.data)
        else u
      Except.ok ⟨pyStrip h.text, "BBC News", u2, today, ""⟩

/-- `NewsAggregator.fetch_bbc_news` (source lines 34–62).  The parameter is
the outcome of `requests.get` + BeautifulSoup parsing: `Except.error` for a
network failure, otherwise the headline elements found, of which the code
processes the first 20.  `datetime.now().strftime('%Y-%m-%d')` is the
parameter `today`. -/
def fetch_bbc_news (today : String) (resp : Except Unit (List Headline)) : List Article :=
  match resp with
  | Except.error _ => []
  | Except.ok hs => adapterLoop (parseHeadline today) (hs.take 20) []

/-- The articles an adapter loop yields according to the amended claim: those
parsed before the first failing item (all of them when no item fails). -/
def parsedPrefix {α : Type} (f : α → Except Unit Article) (items : List α) : List Article :=
  ((items.map f).takeWhile (fun e => e.toOption.isSome)).filterMap Except.toOption

theorem adapterLoop_eq_parsedPrefix {α : Type} (f : α → Except Unit Article) :
    ∀ (items : List α) (acc : List Article),
      adapterLoop f items acc = acc.reverse ++ parsedPrefix f items := by
  intro items
  induction items with
  | nil => intro acc; simp [adapterLoop, parsedPrefix]
  | cons v rest ih =>
    intro acc
    rcases hv : f v with e | a
    · simp [adapterLoop, hv, parsedPrefix, Except.toOption]
    · rw [adapterLoop]
      simp only [hv]
      rw [ih (a :: acc)]
      simp [parsedPrefix, hv, Except.toOption]

/-- C8 amended: neither adapter raises to its caller (each is a total function
of the modelled remote outcome).  A failure of the network request or of the
response decoding yields the empty list, but a failure while processing an
individual item yields the articles parsed before that failure — not
necessarily the empty list. -/
theorem adapters_swallow_failures :
    (∀ (today : String) (e : Unit), fetch_bbc_news today (Except.error e) = []) ∧
    (∀ e : Unit, fetch_newsapi (Except.error e) = []) ∧
    (∀ (today : String) (hs : List Headline),
       fetch_bbc_news today (Except.ok hs) = parsedPrefix (parseHeadline today) (hs.take 20)) ∧
    (∀ items : List PyVal,
       fetch_newsapi (Except.ok (PyVal.dict
           [("status", PyVal.str "ok"), ("articles", PyVal.list items)])) =
         parsedPrefix parseNAItem items) := by
  refine ⟨fun _ _ => rfl, fun _ => rfl, ?_, ?_⟩
  · intro today hs
    exact (adapterLoop_eq_parsedPrefix (parseHeadline today) (hs.take 20) []).trans (by simp)
  · intro items
    show adapterLoop parseNAItem items [] = _
    exact (adapterLoop_eq_parsedPrefix parseNAItem items []).trans (by simp)

def naBadItem : PyVal :=
  PyVal.dict [("title", PyVal.str "Broken"), ("publishedAt", PyVal.none)]

def naGoodItem : PyVal :=
  PyVal.dict [("title", PyVal.str "Good"),
    ("source", PyVal.dict [("name", PyVal.str "Src")]),
    ("url", PyVal.str "http://x"),
    ("publishedAt", PyVal.str "2024-01-02T03:04:05Z"),
    ("description", PyVal.str "d")]

def naResp : PyVal :=
  PyVal.dict [("status", PyVal.str "ok"), ("articles", PyVal.list [naGoodItem, naBadItem])]

/-- C8 counterexample: a remote-format failure during the fetch — the second
item's `publishedAt` is null, so Python's `[:10]` raises a TypeError — does
not make the adapter return an empty sequence: the article parsed before the
failure is returned, refuting "returns an empty sequence" for every failure. -/
theorem fetch_newsapi_partial_on_failure :
    parseNAItem naBadItem = Except.error () ∧
    fetch_newsapi (Except.ok naResp) = [⟨"Good", "Src", "http://x", "2024-01-02", "d"⟩] ∧
    fetch_newsapi (Except.ok naResp) ≠ [] :=
  ⟨rfl, rfl, fun h => List.cons_ne_nil _ _
    ((show fetch_newsapi (Except.ok naResp) =
        [⟨"Good", "Src", "http://x", "2024-01-02", "d"⟩] from rfl).symm.trans h)⟩

/-- The id bookkeeping of reachable stores: every stored id is below the
AUTOINCREMENT counter and ids are pairwise distinct.  `store_articles`
preserves it (and a fresh store has it), so the distinct-ids hypothesis of
the query-ordering theorem holds on every reachable store. -/
def idInvariant (db : DB) : Prop :=
  (∀ r ∈ db.rows, r.id < db.nextId) ∧ (db.rows.map Row.id).Nodup

theorem emptyDB_idInvariant : idInvariant emptyDB :=
  ⟨fun r hr => absurd hr (List.not_mem_nil r), List.nodup_nil⟩

theorem insertOne_idInvariant (db : DB) (now : String) (a : Article)
    (h : idInvariant db) : idInvariant (insertOne db now a).1 := by
  rw [insertOne]
  split
  · exact h
  · constructor
    · intro r hr
      rcases List.mem_append.1 hr with hr2 | hr2
      · exact Nat.lt_trans (h.1 r hr2) (Nat.lt_succ_self _)
      · rcases List.mem_singleton.1 hr2 with rfl
        exact Nat.lt_succ_self _
    · rw [List.map_append]
      refine List.Nodup.append h.2 (List.nodup_singleton _) ?_
      intro x hx hy
      rcases List.mem_map.1 hx with ⟨r, hr, rfl⟩
      have hy2 := List.mem_singleton.1 (by simpa using hy)
      have := h.1 r hr
      omega

theorem storeFold_idInvariant (now : String) :
    ∀ (articles : List Article) (db : DB) (c : Nat),
      idInvariant db →
      idInvariant (articles.foldl
        (fun acc a => let r := insertOne acc.1 now a; (r.1, acc.2 + r.2)) (db, c)).1 := by
  intro articles
  induction articles with
  | nil => intro db c h; exact h
  | cons a rest ih =>
    intro db c h
    rw [List.foldl_cons]
    exact ih (insertOne db now a).1 (c + (insertOne db now a).2)
      (insertOne_idInvariant db now a h)

theorem store_articles_idInvariant (db : DB) (now : String) (articles : List Article)
    (h : idInvariant db) : idInvariant (store_articles db now articles).1 :=
  storeFold_idInvariant now articles db 0 h
